import Mathlib

/-!
Verification development for the traffic-data pipeline
(`data_preprocessing.py` aggregator and `temp_model_1.py` trainer).

The aggregator walks a list of XML detector-reading files, accumulates
per-key sums and counts in a dictionary keyed by
(road, lane, hour, direction, validity, date), and periodically flushes
the rolled-up records to a CSV file.

Numeric values parsed from XML text are embedded as exact rationals
(Python floats behave as reals for the purposes of these statements),
volumes as integers, and the mutable dictionary as an insertion-ordered
association list, which matches Python dict semantics.
-/

/-! ### Python numeric-literal parsing

`pyFloat` / `pyInt` model Python `float(s)` / `int(s)` on optionally signed
decimal literals, returning `none` where Python raises `ValueError`.
(Exotic accepted forms such as exponents, `inf` or `nan` are outside the
inputs this development evaluates.) -/

/-- Value of a digit string; `none` if any character is not a digit.
The empty list yields `some 0` (callers reject empty strings themselves). -/
def digitsToNat (cs : List Char) : Option Nat :=
  cs.foldl (fun acc c =>
    match acc with
    | none => none
    | some n => if c.isDigit then some (10 * n + (c.toNat - 48)) else none)
    (some 0)

/-- Python `float(s)` on signed decimal literals: optional sign, then digits
with at most one decimal point and at least one character around it. -/
def pyFloat (s : String) : Option ℚ :=
  let cs := s.toList
  let sign : ℚ := match cs with
    | '-' :: _ => -1
    | _ => 1
  let body : List Char := match cs with
    | '-' :: rest => rest
    | '+' :: rest => rest
    | _ => cs
  let intPart := body.takeWhile (fun c => c ≠ '.')
  match body.dropWhile (fun c => c ≠ '.') with
  | [] =>
    if intPart = [] then none
    else (digitsToNat intPart).map (fun n => sign * n)
  | _ :: frac =>
    if frac.any (fun c => c = '.') then none
    else if intPart = [] ∧ frac = [] then none
    else
      match digitsToNat intPart, digitsToNat frac with
      | some a, some b => some (sign * ((a : ℚ) + (b : ℚ) / ((10 : ℚ) ^ frac.length)))
      | _, _ => none

/-- Python `int(s)` on signed decimal literals. -/
def pyInt (s : String) : Option ℤ :=
  let cs := s.toList
  let sign : ℤ := match cs with
    | '-' :: _ => -1
    | _ => 1
  let body : List Char := match cs with
    | '-' :: rest => rest
    | '+' :: rest => rest
    | _ => cs
  if body = [] then none
  else (digitsToNat body).map (fun n => sign * n)

/-! ### XML document model

One parsed XML detector file, as traversed by `process_single_file`:
a `date` element, `period` nodes each holding `period_from` and nested
`detector` nodes, each holding `detector_id`, `direction` and nested
`lane` nodes.  An element that may be absent is an `Option`; the stored
`String` is the element text.  A file whose parse fails (malformed XML)
is an `Except.error`. -/

structure Lane where
  lane_id : Option String
  speed : Option String
  occupancy : Option String
  volume : Option String
  valid : Option String
deriving DecidableEq, Repr

structure Detector where
  detector_id : Option String
  direction : Option String
  lanes : List Lane
deriving DecidableEq, Repr

structure Period where
  period_from : Option String
  detectors : List Detector
deriving DecidableEq, Repr

structure XmlRoot where
  date : Option String
  periods : List Period
deriving DecidableEq, Repr

deriving instance DecidableEq for Except

/-- A file handed to the aggregator: either a parsed tree or a parse failure. -/
abbrev XmlFile := Except String XmlRoot

/-- The static road registry: road name paired with its detector-ID list,
in insertion order (Python dict iteration order). -/
abbrev Registry := List (String × List String)

/-- The linear first-match search of `process_single_file` lines 32-36:
iterate the registry in order, return the first road whose detector list
contains the ID. -/
def findRoad (road_detectors : Registry) (detector_id : String) : Option String :=
  match road_detectors with
  | [] => none
  | (road, dets) :: rest =>
    if detector_id ∈ dets then some road else findRoad rest detector_id

/-- Line 39 tests `if not road_name`, which is also true for a road named
by the empty string (Python truthiness); such a detector is skipped too. -/
def resolveRoad (road_detectors : Registry) (detector_id : String) : Option String :=
  match findRoad road_detectors detector_id with
  | none => none
  | some road => if road = "" then none else some road

/-! ### The aggregate map -/

/-- The dictionary key `(road_name, lane_id, hour, direction, valid, date)`. -/
structure Key where
  road : String
  lane : String
  hour : String
  direction : String
  valid : String
  date : String
deriving DecidableEq, Repr

/-- The per-key record `{total_speed, total_occupancy, total_volume, count}`. -/
structure Stats where
  total_speed : ℚ
  total_occupancy : ℚ
  total_volume : ℤ
  count : ℕ
deriving DecidableEq, Repr

def zeroStats : Stats := ⟨0, 0, 0, 0⟩

/-- One reading's `+=` update of a stats record (lines 57-60). -/
def bumpStats (s o : ℚ) (v : ℤ) (st : Stats) : Stats :=
  ⟨st.total_speed + s, st.total_occupancy + o, st.total_volume + v, st.count + 1⟩

/-- The mutable dictionary, as an insertion-ordered association list. -/
abbrev AggMap := List (Key × Stats)

/-- First-match lookup, i.e. Python `hourly_data[key]` / `key in hourly_data`. -/
def lookupKey : AggMap → Key → Option Stats
  | [], _ => none
  | e :: rest, k => if e.1 = k then some e.2 else lookupKey rest k

def keysOf (m : AggMap) : List Key := m.map Prod.fst

/-- Lines 53-60: if the key is absent insert a zero record (appended at the
end, Python dict insertion order), then `+=` the reading's values into it. -/
def addReading (m : AggMap) (k : Key) (s o : ℚ) (v : ℤ) : AggMap :=
  match m with
  | [] => [(k, bumpStats s o v zeroStats)]
  | e :: rest =>
    if e.1 = k then (e.1, bumpStats s o v e.2) :: rest
    else e :: addReading rest k s o v

/-! ### One reading -/

/-- One lane record as actually aggregated: its dictionary key and the
numeric values added into the running totals. -/
structure Reading where
  key : Key
  speed : ℚ
  occupancy : ℚ
  volume : ℤ
deriving DecidableEq, Repr

/-- `lane.find('speed')` handling (line 47): absent element defaults to
`0.0`; present text goes through `float`, whose failure raises. -/
def laneSpeedVal (l : Lane) : Option ℚ :=
  match l.speed with
  | none => some 0
  | some s => pyFloat s

/-- Line 48: occupancy, default `0.0`. -/
def laneOccVal (l : Lane) : Option ℚ :=
  match l.occupancy with
  | none => some 0
  | some s => pyFloat s

/-- Line 49: volume through `int`, default `0`. -/
def laneVolVal (l : Lane) : Option ℤ :=
  match l.volume with
  | none => some 0
  | some s => pyInt s

/-- Lines 46-53: extract one lane's reading.  `lane_id` and `valid` default
to the empty string when absent; `none` means one of the numeric
conversions raised. -/
def parseLane (road hour direction date : String) (l : Lane) : Option Reading :=
  match laneSpeedVal l, laneOccVal l, laneVolVal l with
  | some s, some o, some v =>
    some ⟨⟨road, l.lane_id.getD "", hour, direction, l.valid.getD "", date⟩, s, o, v⟩
  | _, _, _ => none

/-! ### The traversal of `process_single_file`

Each level returns the updated map together with an ok flag; `false`
means an exception was raised at that point, which aborts the remaining
traversal of the file (the partially updated map survives, because the
Python dictionary is mutated in place). -/

/-- Lines 45-60: the `for lane in detector.findall('./lanes/lane')` loop. -/
def processLanes (road hour direction date : String) (m : AggMap) :
    List Lane → AggMap × Bool
  | [] => (m, true)
  | l :: rest =>
    match parseLane road hour direction date l with
    | none => (m, false)
    | some r =>
      processLanes road hour direction date
        (addReading m r.key r.speed r.occupancy r.volume) rest

/-- Lines 28-60: the `for detector in ...` loop, with the road-resolution
skip (lines 38-40). -/
def processDetectors (registry : Registry) (hour date : String) (m : AggMap) :
    List Detector → AggMap × Bool
  | [] => (m, true)
  | d :: rest =>
    match resolveRoad registry (d.detector_id.getD "") with
    | none => processDetectors registry hour date m rest
    | some road =>
      let res := processLanes road hour (d.direction.getD "") date m d.lanes
      if res.2 then processDetectors registry hour date res.1 rest else res

/-- Lines 24-26: `period_from.split(':')[0]`, the text before the first
colon (the whole text when there is no colon; absent `period_from`
defaults to the empty string, giving hour `""`). -/
def hourOfPeriod (p : Period) : String :=
  (((p.period_from.getD "").toList).takeWhile (fun c => c ≠ ':')).asString

/-- Lines 24-60: the `for period in root.findall('.//period')` loop. -/
def processPeriods (registry : Registry) (date : String) (m : AggMap) :
    List Period → AggMap × Bool
  | [] => (m, true)
  | p :: rest =>
    let res := processDetectors registry (hourOfPeriod p) date m p.detectors
    if res.2 then processPeriods registry date res.1 rest else res

/-- Lines 15-63, `process_single_file`: a parse failure is caught before any
mutation; otherwise the date is extracted (default empty) and the periods
are traversed.  Any exception mid-traversal is caught by the `except`
clause, so the partially updated map is returned either way. -/
def process_single_file (file : XmlFile) (registry : Registry) (m : AggMap) : AggMap :=
  match file with
  | .error _ => m
  | .ok root => (processPeriods registry (root.date.getD "") m root.periods).1

/-! ### The readings a file contributes

The same traversal, producing the list of lane records actually
aggregated (the traversal stops at the first conversion failure, mirroring
the exception). -/

def lanesReadings (road hour direction date : String) :
    List Lane → List Reading × Bool
  | [] => ([], true)
  | l :: rest =>
    match parseLane road hour direction date l with
    | none => ([], false)
    | some r =>
      ((r :: (lanesReadings road hour direction date rest).1),
        (lanesReadings road hour direction date rest).2)

def detectorsReadings (registry : Registry) (hour date : String) :
    List Detector → List Reading × Bool
  | [] => ([], true)
  | d :: rest =>
    match resolveRoad registry (d.detector_id.getD "") with
    | none => detectorsReadings registry hour date rest
    | some road =>
      let res := lanesReadings road hour (d.direction.getD "") date d.lanes
      if res.2 then
        (res.1 ++ (detectorsReadings registry hour date rest).1,
          (detectorsReadings registry hour date rest).2)
      else res

def periodsReadings (registry : Registry) (date : String) :
    List Period → List Reading × Bool
  | [] => ([], true)
  | p :: rest =>
    let res := detectorsReadings registry (hourOfPeriod p) date p.detectors
    if res.2 then
      (res.1 ++ (periodsReadings registry date rest).1,
        (periodsReadings registry date rest).2)
    else res

/-- The lane records a file contributes to the map (empty for a file whose
parse fails). -/
def fileReadings (registry : Registry) (file : XmlFile) : List Reading :=
  match file with
  | .error _ => []
  | .ok root => (periodsReadings registry (root.date.getD "") root.periods).1

def filesReadings (registry : Registry) (files : List XmlFile) : List Reading :=
  (files.map (fileReadings registry)).flatten

/-- Folding a list of readings into the map, one `addReading` each. -/
def buildMapFrom (m : AggMap) (rs : List Reading) : AggMap :=
  rs.foldl (fun m r => addReading m r.key r.speed r.occupancy r.volume) m

/-! ### CSV output, batch driver -/

/-- One emitted CSV data row (line 80): the six key fields, the two means
and the volume sum. -/
structure CsvRow where
  road : String
  lane : String
  hour : String
  direction : String
  valid : String
  date : String
  avg_speed : ℚ
  avg_occupancy : ℚ
  total_volume : ℤ
deriving DecidableEq, Repr

/-- A line of the output file: the header row or a data row. -/
inductive OutLine where
  | headerLine : List String → OutLine
  | dataLine : CsvRow → OutLine
deriving DecidableEq, Repr

/-- Lines 76-80: finalize one aggregate entry into a CSV row. -/
def rowOfEntry (e : Key × Stats) : CsvRow :=
  ⟨e.1.road, e.1.lane, e.1.hour, e.1.direction, e.1.valid, e.1.date,
    e.2.total_speed / (e.2.count : ℚ),
    e.2.total_occupancy / (e.2.count : ℚ),
    e.2.total_volume⟩

/-- Lines 66-80, `write_aggregated_data`: open the CSV in append mode and
write one data row per aggregate entry, in map iteration order. -/
def write_aggregated_data (m : AggMap) (out : List OutLine) : List OutLine :=
  out ++ m.map (fun e => OutLine.dataLine (rowOfEntry e))

/-- Line 98: the header field list written once at the start of the run. -/
def headerFields : List String :=
  ["Road", "Lane", "Hour", "Direction", "Valid", "Date",
    "Average_Speed", "Average_Occupancy", "Total_Volume"]

/-- Lines 101-109: the `for i, xml_file in enumerate(file_list)` loop.
`n` is `len(file_list)`; a flush (write then `clear`) happens when
`(i + 1) % batch_size == 0` or `i + 1 == n`. -/
def aggLoop (registry : Registry) (bs n : ℕ) :
    List XmlFile → ℕ → AggMap → List OutLine → List OutLine
  | [], _, _, out => out
  | f :: rest, i, m, out =>
    let m' := process_single_file f registry m
    if (i + 1) % bs = 0 ∨ i + 1 = n then
      aggLoop registry bs n rest (i + 1) [] (write_aggregated_data m' out)
    else
      aggLoop registry bs n rest (i + 1) m' out

/-- Lines 83-109, `aggregate_hourly_data`: truncate the output file, write
the header row, then process the files with periodic batch flushes. -/
def aggregate_hourly_data (files : List XmlFile) (registry : Registry)
    (bs : ℕ) : List OutLine :=
  aggLoop registry bs files.length files 0 [] [OutLine.headerLine headerFields]

/-- Processing a list of files in order against a shared map. -/
def processFiles (registry : Registry) (files : List XmlFile) (m : AggMap) : AggMap :=
  files.foldl (fun m f => process_single_file f registry m) m

/-- The data rows of an output-line list. -/
def dataRows (out : List OutLine) : List CsvRow :=
  out.filterMap (fun l =>
    match l with
    | OutLine.dataLine r => some r
    | OutLine.headerLine _ => none)

/-! ### The traversal equals a fold over the contributed readings -/

theorem buildMapFrom_nil (m : AggMap) : buildMapFrom m [] = m := rfl

theorem buildMapFrom_cons (m : AggMap) (r : Reading) (rs : List Reading) :
    buildMapFrom m (r :: rs)
      = buildMapFrom (addReading m r.key r.speed r.occupancy r.volume) rs := rfl

theorem buildMapFrom_append (m : AggMap) (rs₁ rs₂ : List Reading) :
    buildMapFrom m (rs₁ ++ rs₂) = buildMapFrom (buildMapFrom m rs₁) rs₂ :=
  List.foldl_append ..

theorem processLanes_eq (road hour direction date : String) (ls : List Lane) :
    ∀ m : AggMap,
      processLanes road hour direction date m ls
        = (buildMapFrom m (lanesReadings road hour direction date ls).1,
            (lanesReadings road hour direction date ls).2) := by
  induction ls with
  | nil => intro m; rfl
  | cons l rest ih =>
    intro m
    cases hp : parseLane road hour direction date l with
    | none => simp only [processLanes, lanesReadings, hp, buildMapFrom_nil]
    | some r =>
      simp only [processLanes, lanesReadings, hp]
      exact ih (addReading m r.key r.speed r.occupancy r.volume)

theorem processDetectors_eq (registry : Registry) (hour date : String)
    (ds : List Detector) :
    ∀ m : AggMap,
      processDetectors registry hour date m ds
        = (buildMapFrom m (detectorsReadings registry hour date ds).1,
            (detectorsReadings registry hour date ds).2) := by
  induction ds with
  | nil => intro m; rfl
  | cons d rest ih =>
    intro m
    cases hres : resolveRoad registry (d.detector_id.getD "") with
    | none => simp only [processDetectors, detectorsReadings, hres]; exact ih m
    | some road =>
      simp only [processDetectors, detectorsReadings, hres, processLanes_eq]
      cases hok : (lanesReadings road hour (d.direction.getD "") date d.lanes).2 with
      | true => simp [ih, buildMapFrom_append]
      | false => simp [hok]

theorem processPeriods_eq (registry : Registry) (date : String) (ps : List Period) :
    ∀ m : AggMap,
      processPeriods registry date m ps
        = (buildMapFrom m (periodsReadings registry date ps).1,
            (periodsReadings registry date ps).2) := by
  induction ps with
  | nil => intro m; rfl
  | cons p rest ih =>
    intro m
    simp only [processPeriods, periodsReadings, processDetectors_eq]
    cases hok : (detectorsReadings registry (hourOfPeriod p) date p.detectors).2 with
    | true => simp [ih, buildMapFrom_append]
    | false => simp [hok]

theorem process_single_file_eq (file : XmlFile) (registry : Registry) (m : AggMap) :
    process_single_file file registry m = buildMapFrom m (fileReadings registry file) := by
  cases file with
  | error e => rfl
  | ok root => simp only [process_single_file, fileReadings, processPeriods_eq]

theorem processFiles_snoc (registry : Registry) (files : List XmlFile) (f : XmlFile)
    (m : AggMap) :
    processFiles registry (files ++ [f]) m
      = process_single_file f registry (processFiles registry files m) := by
  simp [processFiles, List.foldl_append]

theorem processFiles_eq (registry : Registry) :
    ∀ (files : List XmlFile) (m : AggMap),
      processFiles registry files m = buildMapFrom m (filesReadings registry files) := by
  intro files
  induction files with
  | nil => intro m; rfl
  | cons f rest ih =>
    intro m
    simp only [processFiles, List.foldl_cons, filesReadings, List.map_cons,
      List.flatten_cons, buildMapFrom_append]
    rw [← process_single_file_eq]
    exact ih (process_single_file f registry m)

/-! ### Per-key sums over a reading list, and correctness of the map -/

/-- The readings of `rs` sharing the key `k`. -/
def keyReadings (rs : List Reading) (k : Key) : List Reading :=
  rs.filter (fun r => decide (r.key = k))

def speedSum (rs : List Reading) (k : Key) : ℚ :=
  ((keyReadings rs k).map Reading.speed).sum

def occSum (rs : List Reading) (k : Key) : ℚ :=
  ((keyReadings rs k).map Reading.occupancy).sum

def volSum (rs : List Reading) (k : Key) : ℤ :=
  ((keyReadings rs k).map Reading.volume).sum

def countKey (rs : List Reading) (k : Key) : ℕ :=
  (keyReadings rs k).length

/-- The stats record a key should hold after aggregating `rs`. -/
def canonStats (rs : List Reading) (k : Key) : Stats :=
  ⟨speedSum rs k, occSum rs k, volSum rs k, countKey rs k⟩

theorem lookup_addReading (k : Key) (s o : ℚ) (v : ℤ) :
    ∀ (m : AggMap) (k' : Key),
      lookupKey (addReading m k s o v) k'
        = if k' = k then some (bumpStats s o v ((lookupKey m k).getD zeroStats))
          else lookupKey m k' := by
  intro m
  induction m with
  | nil =>
    intro k'
    by_cases h : k' = k
    · simp [addReading, lookupKey, h]
    · simp [addReading, lookupKey, h, show ¬ k = k' from fun hc => h hc.symm]
  | cons e rest ih =>
    intro k'
    by_cases he : e.1 = k
    · by_cases h : k' = k
      · subst h
        simp [addReading, he, lookupKey]
      · simp [addReading, he, lookupKey, h,
          show ¬ k = k' from fun hc => h hc.symm]
    · by_cases h2 : e.1 = k'
      · have h : ¬ k' = k := fun hc => he (h2.symm ▸ hc)
        simp [addReading, he, lookupKey, h2, h]
      · simp [addReading, he, lookupKey, h2, ih]

theorem mem_keys_addReading (m : AggMap) (k : Key) (s o : ℚ) (v : ℤ) (k' : Key) :
    k' ∈ keysOf (addReading m k s o v) ↔ k' ∈ keysOf m ∨ k' = k := by
  induction m with
  | nil => simp [addReading, keysOf]
  | cons e rest ih =>
    by_cases he : e.1 = k
    · simp only [addReading, he, if_true, keysOf, List.map_cons, List.mem_cons]
      tauto
    · simp only [addReading, he, if_false, keysOf, List.map_cons, List.mem_cons]
      rw [show (addReading rest k s o v).map Prod.fst = keysOf (addReading rest k s o v) from rfl]
      rw [ih]
      show _ ↔ (k' = e.1 ∨ k' ∈ keysOf rest) ∨ k' = k
      tauto

theorem nodup_keys_addReading (m : AggMap) (k : Key) (s o : ℚ) (v : ℤ)
    (h : (keysOf m).Nodup) : (keysOf (addReading m k s o v)).Nodup := by
  induction m with
  | nil => simp [addReading, keysOf]
  | cons e rest ih =>
    rw [keysOf, List.map_cons, List.nodup_cons] at h
    by_cases he : e.1 = k
    · simpa [addReading, he, keysOf, List.nodup_cons] using h
    · simp only [addReading, he, if_false, keysOf, List.map_cons, List.nodup_cons]
      refine ⟨?_, ih h.2⟩
      rw [show (addReading rest k s o v).map Prod.fst = keysOf (addReading rest k s o v) from rfl]
      rw [mem_keys_addReading]
      rintro (hc | hc)
      · exact h.1 hc
      · exact he hc

theorem nodup_keys_buildMapFrom :
    ∀ (rs : List Reading) (m : AggMap), (keysOf m).Nodup →
      (keysOf (buildMapFrom m rs)).Nodup := by
  intro rs
  induction rs with
  | nil => intro m h; exact h
  | cons r rest ih =>
    intro m h
    rw [buildMapFrom_cons]
    exact ih _ (nodup_keys_addReading m r.key r.speed r.occupancy r.volume h)

theorem lookup_of_mem_nodup :
    ∀ (m : AggMap), (keysOf m).Nodup → ∀ e ∈ m, lookupKey m e.1 = some e.2 := by
  intro m
  induction m with
  | nil => intro _ e he; cases he
  | cons f rest ih =>
    intro h e he
    rw [keysOf, List.map_cons, List.nodup_cons] at h
    rcases List.mem_cons.mp he with rfl | hmem
    · simp [lookupKey]
    · have hne : f.1 ≠ e.1 := by
        intro hc
        exact h.1 (hc ▸ List.mem_map_of_mem Prod.fst hmem)
      simp only [lookupKey, hne, if_false]
      exact ih h.2 e hmem

theorem keyReadings_append (rs₁ rs₂ : List Reading) (k : Key) :
    keyReadings (rs₁ ++ rs₂) k = keyReadings rs₁ k ++ keyReadings rs₂ k :=
  List.filter_append ..

theorem keyReadings_singleton (r : Reading) (k : Key) :
    keyReadings [r] k = if r.key = k then [r] else [] := by
  by_cases h : r.key = k <;> simp [keyReadings, h]

theorem countKey_eq_zero_iff (rs : List Reading) (k : Key) :
    countKey rs k = 0 ↔ keyReadings rs k = [] := by
  rw [countKey, List.length_eq_zero]

theorem canonStats_append_same (rs : List Reading) (r : Reading) :
    canonStats (rs ++ [r]) r.key
      = bumpStats r.speed r.occupancy r.volume (canonStats rs r.key) := by
  simp only [canonStats, bumpStats, speedSum, occSum, volSum, countKey,
    keyReadings_append, keyReadings_singleton, if_pos rfl, List.map_append,
    List.sum_append, List.length_append, List.map_cons, List.map_nil,
    List.sum_cons, List.sum_nil, List.length_cons, List.length_nil]
  simp

theorem canonStats_append_other (rs : List Reading) (r : Reading) (k : Key)
    (h : ¬ r.key = k) : canonStats (rs ++ [r]) k = canonStats rs k := by
  simp [canonStats, speedSum, occSum, volSum, countKey,
    keyReadings_append, keyReadings_singleton, h]

theorem countKey_append_other (rs : List Reading) (r : Reading) (k : Key)
    (h : ¬ r.key = k) : countKey (rs ++ [r]) k = countKey rs k := by
  simp [countKey, keyReadings_append, keyReadings_singleton, h]

theorem countKey_append_same (rs : List Reading) (r : Reading) :
    countKey (rs ++ [r]) r.key = countKey rs r.key + 1 := by
  simp [countKey, keyReadings_append, keyReadings_singleton]

/-- The content of the aggregate map built from a reading list: each key
maps to exactly its per-key sums and count, and is present exactly when
some reading carries it. -/
theorem lookup_buildMap (rs : List Reading) :
    ∀ k : Key,
      lookupKey (buildMapFrom [] rs) k
        = if countKey rs k = 0 then none else some (canonStats rs k) := by
  induction rs using List.reverseRecOn with
  | nil => intro k; simp [buildMapFrom, lookupKey, countKey, keyReadings]
  | append_singleton rs r ih =>
    intro k
    rw [buildMapFrom_append, buildMapFrom_cons, buildMapFrom_nil,
      lookup_addReading]
    by_cases hk : k = r.key
    · subst hk
      rw [if_pos rfl, ih r.key]
      by_cases h0 : countKey rs r.key = 0
      · have hempty : keyReadings rs r.key = [] :=
          (countKey_eq_zero_iff rs r.key).mp h0
        rw [if_pos h0, if_neg (by rw [countKey_append_same]; omega)]
        rw [canonStats_append_same]
        simp [canonStats, speedSum, occSum, volSum, countKey, hempty,
          bumpStats, zeroStats]
      · rw [if_neg h0, if_neg (by rw [countKey_append_same]; omega)]
        rw [canonStats_append_same]
        simp
    · have hk' : ¬ r.key = k := fun hc => hk hc.symm
      rw [if_neg hk, ih k, countKey_append_other rs r k hk']
      by_cases h0 : countKey rs k = 0
      · rw [if_pos h0, if_pos h0]
      · rw [if_neg h0, if_neg h0, canonStats_append_other rs r k hk']

/-- Every entry of the map built from `rs` holds exactly the per-key sums
of `rs` at its key, with a positive count. -/
theorem mem_buildMap_canon (rs : List Reading) (e : Key × Stats)
    (he : e ∈ buildMapFrom [] rs) :
    e.2 = canonStats rs e.1 ∧ 0 < countKey rs e.1 := by
  have hnd : (keysOf (buildMapFrom [] rs)).Nodup :=
    nodup_keys_buildMapFrom rs [] (by simp [keysOf])
  have hl := lookup_of_mem_nodup _ hnd e he
  rw [lookup_buildMap] at hl
  by_cases h0 : countKey rs e.1 = 0
  · rw [if_pos h0] at hl; cases hl
  · rw [if_neg h0] at hl
    exact ⟨(Option.some.injEq _ _ ▸ hl :).symm, Nat.pos_of_ne_zero h0⟩

/-! ### The batch structure of a run

`aggLoop` flushes after every `batch_size`-th file and after the last
file, so a run emits, after the header, exactly the finalized maps of the
consecutive chunks of the file list. -/

/-- The consecutive batches of a run: `seg` is the tail of files already
processed since the last flush. -/
def chunksAux (bs : ℕ) : List XmlFile → List XmlFile → List (List XmlFile)
  | _, [] => []
  | seg, f :: rest =>
    if (seg.length + 1) % bs = 0 ∨ rest = [] then
      (seg ++ [f]) :: chunksAux bs [] rest
    else
      chunksAux bs (seg ++ [f]) rest

/-- The data lines one batch flush appends: the finalized rows of the map
obtained by processing the batch from an empty map. -/
def flushRows (registry : Registry) (c : List XmlFile) : List OutLine :=
  (processFiles registry c []).map (fun e => OutLine.dataLine (rowOfEntry e))

theorem aggLoop_eq_chunks (registry : Registry) (bs : ℕ) :
    ∀ (files seg : List XmlFile) (i : ℕ) (out : List OutLine),
      i % bs = seg.length % bs →
      aggLoop registry bs (i + files.length) files i (processFiles registry seg []) out
        = out ++ ((chunksAux bs seg files).map (flushRows registry)).flatten := by
  intro files
  induction files with
  | nil => intro seg i out _; simp [aggLoop, chunksAux]
  | cons f rest ih =>
    intro seg i out h
    have hmod : (i + 1) % bs = (seg.length + 1) % bs := by
      rw [Nat.add_mod i 1 bs, h, ← Nat.add_mod]
    have hsnoc : process_single_file f registry (processFiles registry seg [])
        = processFiles registry (seg ++ [f]) [] := (processFiles_snoc ..).symm
    by_cases hrest : rest = []
    · subst hrest
      have hcond : (i + 1) % bs = 0 ∨ i + 1 = i + [f].length := Or.inr (by simp)
      simp only [aggLoop, List.length_cons, List.length_nil, hcond, if_true,
        if_pos hcond, hsnoc]
      simp only [chunksAux, if_pos (Or.inr rfl), List.map_cons, List.flatten_cons,
        chunksAux, List.map_nil, List.flatten_nil, List.append_nil]
      simp [aggLoop, write_aggregated_data, flushRows, List.append_assoc]
    · by_cases hfl : (seg.length + 1) % bs = 0
      · have hcond : (i + 1) % bs = 0 ∨ i + 1 = i + (f :: rest).length :=
          Or.inl (hmod.trans hfl)
        simp only [aggLoop, if_pos hcond, hsnoc]
        have hn : i + (f :: rest).length = (i + 1) + rest.length := by
          simp [List.length_cons]; omega
        rw [hn]
        have hmod0 : (i + 1) % bs = ([] : List XmlFile).length % bs := by
          simpa using hmod.trans hfl
        rw [show write_aggregated_data (processFiles registry (seg ++ [f]) []) out
            = out ++ flushRows registry (seg ++ [f]) from rfl]
        rw [show ([] : AggMap) = processFiles registry [] [] from rfl]
        rw [ih [] (i + 1) (out ++ flushRows registry (seg ++ [f])) hmod0]
        simp only [chunksAux, if_pos (Or.inl hfl), List.map_cons, List.flatten_cons,
          List.append_assoc]
      · have hlen : ¬ i + 1 = i + (f :: rest).length := by
          simp only [List.length_cons]
          intro hc
          have : rest.length = 0 := by omega
          exact hrest (List.length_eq_zero.mp this)
        have hcond : ¬ ((i + 1) % bs = 0 ∨ i + 1 = i + (f :: rest).length) := by
          rintro (hc | hc)
          · exact hfl (hmod.symm.trans hc)
          · exact hlen hc
        simp only [aggLoop, if_neg hcond, hsnoc]
        have hn : i + (f :: rest).length = (i + 1) + rest.length := by
          simp [List.length_cons]; omega
        rw [hn]
        have hmod2 : (i + 1) % bs = (seg ++ [f]).length % bs := by
          rw [hmod]; simp
        rw [ih (seg ++ [f]) (i + 1) out hmod2]
        simp only [chunksAux, if_neg (by rintro (hc | hc) <;> [exact hfl hc; exact hrest hc] :
          ¬ ((seg.length + 1) % bs = 0 ∨ rest = []))]

/-- A full run is the header line followed by the flushes of the
consecutive chunks of the file list. -/
theorem aggregate_eq_chunks (files : List XmlFile) (registry : Registry) (bs : ℕ) :
    aggregate_hourly_data files registry bs
      = OutLine.headerLine headerFields ::
          ((chunksAux bs [] files).map (flushRows registry)).flatten := by
  have h := aggLoop_eq_chunks registry bs files [] 0 [OutLine.headerLine headerFields]
    (by simp)
  simp only [List.length_nil, Nat.zero_add] at h
  simpa [aggregate_hourly_data, processFiles] using h

/-- Every chunk is a contiguous segment of the file list. -/
theorem chunksAux_parts (bs : ℕ) :
    ∀ (files seg c : List XmlFile), c ∈ chunksAux bs seg files →
      ∃ pre post, seg ++ files = pre ++ c ++ post := by
  intro files
  induction files with
  | nil => intro seg c hc; cases hc
  | cons f rest ih =>
    intro seg c hc
    by_cases hfl : (seg.length + 1) % bs = 0 ∨ rest = []
    · rw [chunksAux, if_pos hfl] at hc
      rcases List.mem_cons.mp hc with rfl | hmem
      · exact ⟨[], rest, by simp⟩
      · obtain ⟨pre, post, hsplit⟩ := ih [] c hmem
        refine ⟨seg ++ [f] ++ pre, post, ?_⟩
        rw [List.nil_append] at hsplit
        calc seg ++ f :: rest = (seg ++ [f]) ++ rest := by simp
          _ = (seg ++ [f]) ++ (pre ++ c ++ post) := by rw [← hsplit]
          _ = (seg ++ [f] ++ pre) ++ c ++ post := by simp [List.append_assoc]
    · rw [chunksAux, if_neg hfl] at hc
      obtain ⟨pre, post, hsplit⟩ := ih (seg ++ [f]) c hc
      refine ⟨pre, post, ?_⟩
      calc seg ++ f :: rest = (seg ++ [f]) ++ rest := by simp
        _ = pre ++ c ++ post := hsplit

/-- The chunks concatenate back to the whole file list. -/
theorem chunksAux_flatten (bs : ℕ) :
    ∀ (files seg : List XmlFile),
      (chunksAux bs seg files).flatten = if files = [] then [] else seg ++ files := by
  intro files
  induction files with
  | nil => intro seg; simp [chunksAux]
  | cons f rest ih =>
    intro seg
    by_cases hfl : (seg.length + 1) % bs = 0 ∨ rest = []
    · rw [chunksAux, if_pos hfl, List.flatten_cons, ih []]
      by_cases hrest : rest = [] <;> simp [hrest]
    · rw [chunksAux, if_neg hfl, ih (seg ++ [f])]
      have hrest : ¬ rest = [] := fun hc => hfl (Or.inr hc)
      simp [hrest]

/-! ### Sample data used by the concrete witnesses

One registered road with one detector, and single-lane files matching the
worked scenario of the spec (speeds 40/60, occupancies 0.1/0.3, volumes
10/20 at hour 08 of the same day). -/

def sampleRegistry : Registry := [("Kwun Tong Road Westbound", ["AID07108"])]

def sampleLaneA : Lane := ⟨some "1", some "40", some "0.1", some "10", some "1"⟩

def sampleLaneB : Lane := ⟨some "1", some "60", some "0.3", some "20", some "1"⟩

def sampleFileA : XmlFile :=
  Except.ok ⟨some "2025-03-01",
    [⟨some "08:15", [⟨some "AID07108", some "W", [sampleLaneA]⟩]⟩]⟩

def sampleFileB : XmlFile :=
  Except.ok ⟨some "2025-03-01",
    [⟨some "08:15", [⟨some "AID07108", some "W", [sampleLaneB]⟩]⟩]⟩

/-- The row the two sample files aggregate to when flushed together. -/
def sampleRowAB : CsvRow :=
  ⟨"Kwun Tong Road Westbound", "1", "08", "W", "1", "2025-03-01", 50, 1/5, 30⟩

theorem sample_run_eval :
    aggregate_hourly_data [sampleFileA, sampleFileB] sampleRegistry 2
      = [OutLine.headerLine headerFields, OutLine.dataLine sampleRowAB] := by
  simp [aggregate_hourly_data, aggLoop, process_single_file, processPeriods,
    processDetectors, processLanes, parseLane, laneSpeedVal, laneOccVal, laneVolVal,
    pyFloat, pyInt, digitsToNat, resolveRoad, findRoad, hourOfPeriod, List.asString,
    addReading, bumpStats, zeroStats, write_aggregated_data, rowOfEntry, sampleRowAB,
    sampleFileA, sampleFileB, sampleLaneA, sampleLaneB, sampleRegistry, headerFields]
  all_goals first | decide | norm_num

/-! ### C1 -/

/-- The aggregate key carried by a CSV row's six key fields. -/
def rowKey (row : CsvRow) : Key :=
  ⟨row.road, row.lane, row.hour, row.direction, row.valid, row.date⟩

/-- **C1**: in every run, every emitted CSV data row belongs to some
contiguous flushed batch of the file list, and its `Average_Speed`
(resp. `Average_Occupancy`) is the sum of the speeds (resp. occupancies)
of the readings of that batch sharing the row's key, divided by the
number of such readings, while `Total_Volume` is the sum of their
volumes; the readings of a batch are the lane records of resolved
detectors it aggregates. -/
theorem c1_rows_are_per_key_means (files : List XmlFile) (registry : Registry)
    (bs : ℕ) (hbs : 0 < bs) (row : CsvRow)
    (hrow : OutLine.dataLine row ∈ aggregate_hourly_data files registry bs) :
    ∃ pre batch post : List XmlFile,
      files = pre ++ batch ++ post ∧
      0 < countKey (filesReadings registry batch) (rowKey row) ∧
      row.avg_speed = speedSum (filesReadings registry batch) (rowKey row)
          / (countKey (filesReadings registry batch) (rowKey row) : ℚ) ∧
      row.avg_occupancy = occSum (filesReadings registry batch) (rowKey row)
          / (countKey (filesReadings registry batch) (rowKey row) : ℚ) ∧
      row.total_volume = volSum (filesReadings registry batch) (rowKey row) := by
  rw [aggregate_eq_chunks] at hrow
  rcases List.mem_cons.mp hrow with hbad | hmem
  · exact absurd hbad (by simp)
  · obtain ⟨l, hl, hrl⟩ := List.mem_flatten.mp hmem
    obtain ⟨c, hcmem, rfl⟩ := List.mem_map.mp hl
    rw [flushRows] at hrl
    obtain ⟨e, he, heq⟩ := List.mem_map.mp hrl
    have hre : rowOfEntry e = row := by simpa using heq
    rw [processFiles_eq] at he
    obtain ⟨hcanon, hpos⟩ := mem_buildMap_canon _ e he
    obtain ⟨pre, post, hparts⟩ := chunksAux_parts bs files [] c hcmem
    rw [List.nil_append] at hparts
    subst hre
    refine ⟨pre, c, post, hparts, ?_, ?_, ?_, ?_⟩
    · exact hpos
    · have h1 : (rowOfEntry e).avg_speed = e.2.total_speed / (e.2.count : ℚ) := rfl
      rw [h1, hcanon]; rfl
    · have h1 : (rowOfEntry e).avg_occupancy
          = e.2.total_occupancy / (e.2.count : ℚ) := rfl
      rw [h1, hcanon]; rfl
    · have h1 : (rowOfEntry e).total_volume = e.2.total_volume := rfl
      rw [h1, hcanon]; rfl

/-- Witness for C1 at a concrete run: two files, one key, batch size 2. -/
theorem c1_rows_are_per_key_means_witness :
    ∃ pre batch post : List XmlFile,
      [sampleFileA, sampleFileB] = pre ++ batch ++ post ∧
      0 < countKey (filesReadings sampleRegistry batch) (rowKey sampleRowAB) ∧
      sampleRowAB.avg_speed
        = speedSum (filesReadings sampleRegistry batch) (rowKey sampleRowAB)
          / (countKey (filesReadings sampleRegistry batch) (rowKey sampleRowAB) : ℚ) ∧
      sampleRowAB.avg_occupancy
        = occSum (filesReadings sampleRegistry batch) (rowKey sampleRowAB)
          / (countKey (filesReadings sampleRegistry batch) (rowKey sampleRowAB) : ℚ) ∧
      sampleRowAB.total_volume
        = volSum (filesReadings sampleRegistry batch) (rowKey sampleRowAB) := by
  have hmem : OutLine.dataLine sampleRowAB
      ∈ aggregate_hourly_data [sampleFileA, sampleFileB] sampleRegistry 2 := by
    rw [sample_run_eval]; simp
  exact c1_rows_are_per_key_means [sampleFileA, sampleFileB] sampleRegistry 2
    (by norm_num) sampleRowAB hmem

/-! ### C7 -/

/-- Every entry of the map has a positive sample count. -/
def countPos (m : AggMap) : Prop := ∀ e ∈ m, 0 < e.2.count

theorem countPos_addReading (m : AggMap) (k : Key) (s o : ℚ) (v : ℤ)
    (h : countPos m) : countPos (addReading m k s o v) := by
  induction m with
  | nil =>
    intro e he
    simp only [addReading, List.mem_singleton] at he
    rw [he]
    simp [bumpStats, zeroStats]
  | cons f rest ih =>
    intro e he
    by_cases hf : f.1 = k
    · simp only [addReading, if_pos hf] at he
      rcases List.mem_cons.mp he with rfl | hmem
      · simp [bumpStats]
      · exact h e (List.mem_cons_of_mem f hmem)
    · simp only [addReading, if_neg hf] at he
      rcases List.mem_cons.mp he with rfl | hmem
      · exact h e (List.mem_cons_self e rest)
      · exact ih (fun x hx => h x (List.mem_cons_of_mem f hx)) e hmem

theorem countPos_buildMapFrom :
    ∀ (rs : List Reading) (m : AggMap), countPos m → countPos (buildMapFrom m rs) := by
  intro rs
  induction rs with
  | nil => intro m h; exact h
  | cons r rest ih =>
    intro m h
    rw [buildMapFrom_cons]
    exact ih _ (countPos_addReading m r.key r.speed r.occupancy r.volume h)

/-- **C7**: at every point of a run every key present in the aggregate map
has a positive count — one `addReading` step, one file, and any whole
batch processed from the empty map all preserve or establish it — so the
count a flushed entry is divided by is never zero. -/
theorem c7_counts_positive :
    (∀ (m : AggMap) (k : Key) (s o : ℚ) (v : ℤ),
        countPos m → countPos (addReading m k s o v)) ∧
    (∀ (file : XmlFile) (registry : Registry) (m : AggMap),
        countPos m → countPos (process_single_file file registry m)) ∧
    (∀ (registry : Registry) (batch : List XmlFile),
        countPos (processFiles registry batch [])) ∧
    (∀ (registry : Registry) (batch : List XmlFile) (e : Key × Stats),
        e ∈ processFiles registry batch [] → ((e.2.count : ℚ)) ≠ 0) := by
  have hfile : ∀ (file : XmlFile) (registry : Registry) (m : AggMap),
      countPos m → countPos (process_single_file file registry m) := by
    intro file registry m h
    rw [process_single_file_eq]
    exact countPos_buildMapFrom _ m h
  have hbatch : ∀ (registry : Registry) (batch : List XmlFile),
      countPos (processFiles registry batch []) := by
    intro registry batch
    rw [processFiles_eq]
    exact countPos_buildMapFrom _ [] (fun e he => absurd he (List.not_mem_nil e))
  refine ⟨countPos_addReading, hfile, hbatch, ?_⟩
  intro registry batch e he
  have := hbatch registry batch e he
  exact_mod_cast Nat.pos_iff_ne_zero.mp this

/-- Witness for C7: a fresh key is created with count 1 from the empty map. -/
theorem c7_counts_positive_witness :
    countPos (addReading [] ⟨"Kwun Tong Road Westbound", "1", "08", "W", "1",
      "2025-03-01"⟩ 40 (1/10) 10) :=
  c7_counts_positive.1 [] _ 40 (1/10) 10
    (fun e he => absurd he (List.not_mem_nil e))

/-! ### C8 -/

/-- Whether an output line is the header row. -/
def isHeaderLine : OutLine → Bool
  | OutLine.headerLine _ => true
  | OutLine.dataLine _ => false

/-- **C8**: every run starts from a truncated output holding exactly one
header row with the nine fixed field names, and the batch flushes only
append data rows after it, so the header occurs exactly once. -/
theorem c8_single_header (files : List XmlFile) (registry : Registry) (bs : ℕ)
    (hbs : 0 < bs) :
    ∃ rest : List OutLine,
      aggregate_hourly_data files registry bs
        = OutLine.headerLine ["Road", "Lane", "Hour", "Direction", "Valid", "Date",
            "Average_Speed", "Average_Occupancy", "Total_Volume"] :: rest ∧
      (∀ l ∈ rest, ∃ r : CsvRow, l = OutLine.dataLine r) ∧
      (aggregate_hourly_data files registry bs).countP isHeaderLine = 1 := by
  have hrest : ∀ l ∈ ((chunksAux bs [] files).map (flushRows registry)).flatten,
      ∃ r : CsvRow, l = OutLine.dataLine r := by
    intro l hl
    obtain ⟨x, hx, hlx⟩ := List.mem_flatten.mp hl
    obtain ⟨c, _, rfl⟩ := List.mem_map.mp hx
    obtain ⟨e, _, rfl⟩ := List.mem_map.mp hlx
    exact ⟨rowOfEntry e, rfl⟩
  refine ⟨((chunksAux bs [] files).map (flushRows registry)).flatten,
    aggregate_eq_chunks files registry bs, hrest, ?_⟩
  have h0 : (((chunksAux bs [] files).map (flushRows registry)).flatten).countP
      isHeaderLine = 0 := by
    rw [List.countP_eq_zero]
    intro l hl
    obtain ⟨r, rfl⟩ := hrest l hl
    simp [isHeaderLine]
  rw [aggregate_eq_chunks files registry bs, List.countP_cons, h0]
  simp [isHeaderLine]

/-- Witness for C8 at a concrete run. -/
theorem c8_single_header_witness :
    ∃ rest : List OutLine,
      aggregate_hourly_data [sampleFileA] sampleRegistry 1
        = OutLine.headerLine ["Road", "Lane", "Hour", "Direction", "Valid", "Date",
            "Average_Speed", "Average_Occupancy", "Total_Volume"] :: rest ∧
      (∀ l ∈ rest, ∃ r : CsvRow, l = OutLine.dataLine r) ∧
      (aggregate_hourly_data [sampleFileA] sampleRegistry 1).countP isHeaderLine = 1 :=
  c8_single_header [sampleFileA] sampleRegistry 1 (by norm_num)

/-! ### C4 -/

/-- **C4**: road resolution is a linear first-match search over the
registry, and a detector whose ID is in no road's detector list resolves
to no road, so the whole detector element — all its lane readings — is
skipped: the map is left unchanged, no error is flagged, and processing
continues with the remaining detectors. -/
theorem c4_unknown_detector_skipped (registry : Registry) (d : String)
    (habsent : ∀ entry ∈ registry, d ∉ entry.2) :
    findRoad registry d = none ∧
    (∀ (r : String) (dets : List String) (rest : Registry) (x : String),
        findRoad ((r, dets) :: rest) x
          = if x ∈ dets then some r else findRoad rest x) ∧
    (∀ det : Detector, det.detector_id.getD "" = d →
      ∀ (hour date : String) (m : AggMap) (ds : List Detector),
        processDetectors registry hour date m (det :: ds)
          = processDetectors registry hour date m ds) := by
  have hfind : findRoad registry d = none := by
    induction registry with
    | nil => rfl
    | cons entry rest ih =>
      obtain ⟨r, dets⟩ := entry
      have hd : d ∉ dets := habsent (r, dets) (List.mem_cons_self _ _)
      rw [findRoad, if_neg hd]
      exact ih (fun e he => habsent e (List.mem_cons_of_mem _ he))
  refine ⟨hfind, fun r dets rest x => rfl, ?_⟩
  intro det hdet hour date m ds
  have hres : resolveRoad registry (det.detector_id.getD "") = none := by
    rw [hdet, resolveRoad, hfind]
  simp only [processDetectors, hres]

/-- Witness for C4: an ID absent from the sample registry. -/
theorem c4_unknown_detector_skipped_witness :
    findRoad sampleRegistry "AID99999" = none ∧
    (∀ (r : String) (dets : List String) (rest : Registry) (x : String),
        findRoad ((r, dets) :: rest) x
          = if x ∈ dets then some r else findRoad rest x) ∧
    (∀ det : Detector, det.detector_id.getD "" = "AID99999" →
      ∀ (hour date : String) (m : AggMap) (ds : List Detector),
        processDetectors sampleRegistry hour date m (det :: ds)
          = processDetectors sampleRegistry hour date m ds) :=
  c4_unknown_detector_skipped sampleRegistry "AID99999" (by decide)

/-! ### C5 -/

/-- A parsed file with no periods; processing it never changes the map. -/
def emptyRoot : XmlRoot := ⟨none, []⟩

theorem aggLoop_congr (registry : Registry) (bs n : ℕ)
    {files₁ files₂ : List XmlFile}
    (h : List.Forall₂ (fun f g => ∀ m : AggMap,
      process_single_file f registry m = process_single_file g registry m)
      files₁ files₂) :
    ∀ (i : ℕ) (m : AggMap) (out : List OutLine),
      aggLoop registry bs n files₁ i m out = aggLoop registry bs n files₂ i m out := by
  induction h with
  | nil => intro i m out; rfl
  | cons h1 _ ih =>
    intro i m out
    simp only [aggLoop, h1 m]
    by_cases hc : (i + 1) % bs = 0 ∨ i + 1 = n
    · rw [if_pos hc, if_pos hc]; exact ih _ _ _
    · rw [if_neg hc, if_neg hc]; exact ih _ _ _

/-- **C5**: a file whose parse raises is caught: it leaves the aggregate
map untouched and contributes no rows, and the whole run proceeds exactly
as if the bad file were an empty parsed file — the remaining files are
all still processed and the run completes. -/
theorem c5_bad_file_skipped (registry : Registry) (bs : ℕ) (hbs : 0 < bs)
    (pre post : List XmlFile) (msg : String) :
    (∀ m : AggMap, process_single_file (Except.error msg) registry m = m) ∧
    aggregate_hourly_data (pre ++ Except.error msg :: post) registry bs
      = aggregate_hourly_data (pre ++ Except.ok emptyRoot :: post) registry bs := by
  refine ⟨fun m => rfl, ?_⟩
  have hrel : List.Forall₂ (fun f g => ∀ m : AggMap,
      process_single_file f registry m = process_single_file g registry m)
      (pre ++ Except.error msg :: post) (pre ++ Except.ok emptyRoot :: post) := by
    refine List.rel_append ?_ (List.Forall₂.cons (fun m => rfl) ?_)
    · exact (List.forall₂_same).mpr (fun x _ m => rfl)
    · exact (List.forall₂_same).mpr (fun x _ m => rfl)
  have hlen : (pre ++ Except.error msg :: post).length
      = (pre ++ Except.ok emptyRoot :: post).length := by simp
  rw [aggregate_hourly_data, aggregate_hourly_data, hlen]
  exact aggLoop_congr registry bs _ hrel 0 [] [OutLine.headerLine headerFields]

/-- Witness for C5: a malformed file between the two sample files. -/
theorem c5_bad_file_skipped_witness :
    (∀ m : AggMap,
      process_single_file (Except.error "not well-formed") sampleRegistry m = m) ∧
    aggregate_hourly_data [sampleFileA, Except.error "not well-formed", sampleFileB]
        sampleRegistry 1
      = aggregate_hourly_data [sampleFileA, Except.ok emptyRoot, sampleFileB]
        sampleRegistry 1 :=
  c5_bad_file_skipped sampleRegistry 1 (by norm_num) [sampleFileA] [sampleFileB]
    "not well-formed"

/-! ### C6 -/

/-- **C6**: absent optional fields take explicit defaults — speed `0.0`,
occupancy `0.0`, volume `0`, and the empty string for `valid`, `lane_id`,
`date`, `direction`, `detector_id` and the period start time — so a lane
with partially missing data still contributes a reading: in particular a
lane with no `speed` element adds `0.0` to `total_speed` and still
increments the count by one, with no error. -/
theorem c6_missing_fields_default (road hour direction date : String) (m : AggMap) :
    (processLanes road hour direction date m [⟨none, none, none, none, none⟩]
        = (addReading m ⟨road, "", hour, direction, "", date⟩ 0 0 0, true)) ∧
    (∀ l : Lane, l.speed = none → ∀ (oq : ℚ) (vq : ℤ),
      laneOccVal l = some oq → laneVolVal l = some vq →
      processLanes road hour direction date m [l]
          = (addReading m ⟨road, l.lane_id.getD "", hour, direction,
              l.valid.getD "", date⟩ 0 oq vq, true) ∧
      (lookupKey (processLanes road hour direction date m [l]).1
          ⟨road, l.lane_id.getD "", hour, direction, l.valid.getD "", date⟩).map
            Stats.count
        = some (((lookupKey m ⟨road, l.lane_id.getD "", hour, direction,
            l.valid.getD "", date⟩).getD zeroStats).count + 1) ∧
      (lookupKey (processLanes road hour direction date m [l]).1
          ⟨road, l.lane_id.getD "", hour, direction, l.valid.getD "", date⟩).map
            Stats.total_speed
        = some (((lookupKey m ⟨road, l.lane_id.getD "", hour, direction,
            l.valid.getD "", date⟩).getD zeroStats).total_speed)) ∧
    (∀ (registry : Registry) (ps : List Period),
      process_single_file (Except.ok ⟨none, ps⟩) registry m
        = process_single_file (Except.ok ⟨some "", ps⟩) registry m) ∧
    (∀ ds : List Detector, hourOfPeriod ⟨none, ds⟩ = "") ∧
    (∀ (registry : Registry) (hour₂ date₂ : String) (ls : List Lane)
        (ds : List Detector),
      processDetectors registry hour₂ date₂ m (⟨none, none, ls⟩ :: ds)
        = processDetectors registry hour₂ date₂ m (⟨some "", some "", ls⟩ :: ds)) := by
  refine ⟨?_, ?_, fun registry ps => rfl, fun ds => rfl,
    fun registry hour₂ date₂ ls ds => rfl⟩
  · simp [processLanes, parseLane, laneSpeedVal, laneOccVal, laneVolVal]
  · intro l hs oq vq ho hv
    have hsp : laneSpeedVal l = some 0 := by simp [laneSpeedVal, hs]
    have hparse : parseLane road hour direction date l
        = some ⟨⟨road, l.lane_id.getD "", hour, direction, l.valid.getD "", date⟩,
            0, oq, vq⟩ := by
      simp [parseLane, hsp, ho, hv]
    have hrun : processLanes road hour direction date m [l]
        = (addReading m ⟨road, l.lane_id.getD "", hour, direction,
            l.valid.getD "", date⟩ 0 oq vq, true) := by
      simp only [processLanes, hparse]
    refine ⟨hrun, ?_, ?_⟩
    · rw [hrun]
      simp [lookup_addReading, bumpStats]
    · rw [hrun]
      simp [lookup_addReading, bumpStats]

/-- Witness for C6: a concrete lane missing only its speed element still
aggregates, contributing speed 0. -/
theorem c6_missing_fields_default_witness :
    processLanes "Kwun Tong Road Westbound" "08" "W" "2025-03-01" []
        [⟨some "1", none, some "0.3", some "20", some "1"⟩]
      = (addReading [] ⟨"Kwun Tong Road Westbound", "1", "08", "W", "1",
          "2025-03-01"⟩ 0 (3/10) 20, true) := by
  have ho : laneOccVal ⟨some "1", none, some "0.3", some "20", some "1"⟩
      = some (3/10) := by
    simp [laneOccVal, pyFloat, digitsToNat]
  have hv : laneVolVal ⟨some "1", none, some "0.3", some "20", some "1"⟩
      = some 20 := by
    simp [laneVolVal, pyInt, digitsToNat]
  exact ((c6_missing_fields_default "Kwun Tong Road Westbound" "08" "W"
    "2025-03-01" []).2.1 ⟨some "1", none, some "0.3", some "20", some "1"⟩ rfl
    (3/10) 20 ho hv).1

/-! ### C10 -/

/-- **C10**: per-file error handling is not atomic with respect to the
map: when a later lane's text fails to convert (e.g. an unparseable
speed), the traversal stops with the error flag set, the exception is
caught, and every contribution aggregated before the failure point — here
the first lane's reading — remains in the map and can reach the output. -/
theorem c10_partial_file_contribution (registry : Registry)
    (did dir pf date : String) (m : AggMap) (l1 l2 : Lane) (ls : List Lane)
    (road : String) (r1 : Reading) (s : String)
    (hres : resolveRoad registry did = some road)
    (h1 : parseLane road (hourOfPeriod ⟨some pf, []⟩) dir date l1 = some r1)
    (hs : l2.speed = some s) (hpf : pyFloat s = none) :
    process_single_file
        (Except.ok ⟨some date, [⟨some pf, [⟨some did, some dir, l1 :: l2 :: ls⟩]⟩]⟩)
        registry m
      = addReading m r1.key r1.speed r1.occupancy r1.volume ∧
    (processPeriods registry date m
        [⟨some pf, [⟨some did, some dir, l1 :: l2 :: ls⟩]⟩]).2 = false := by
  have hl2 : parseLane road (hourOfPeriod ⟨some pf, []⟩) dir date l2 = none := by
    simp [parseLane, laneSpeedVal, hs, hpf]
  have hh : hourOfPeriod ⟨some pf, [⟨some did, some dir, l1 :: l2 :: ls⟩]⟩
      = hourOfPeriod ⟨some pf, []⟩ := rfl
  have hcore : processPeriods registry date m
      [⟨some pf, [⟨some did, some dir, l1 :: l2 :: ls⟩]⟩]
      = (addReading m r1.key r1.speed r1.occupancy r1.volume, false) := by
    simp [processPeriods, processDetectors, processLanes, hh, hres, h1, hl2]
  exact ⟨by simp only [process_single_file, Option.getD_some, hcore], by rw [hcore]⟩

/-- The lane whose speed text cannot be parsed as a float. -/
def c10BadLane : Lane := ⟨some "2", some "abc", none, none, none⟩

/-- A file whose second lane fails conversion after the first lane was
already aggregated. -/
def c10File : XmlFile :=
  Except.ok ⟨some "2025-03-01",
    [⟨some "08:15", [⟨some "AID07108", some "W", [sampleLaneA, c10BadLane]⟩]⟩]⟩

/-- The reading of the first lane of `c10File`. -/
def c10Reading : Reading :=
  ⟨⟨"Kwun Tong Road Westbound", "1", "08", "W", "1", "2025-03-01"⟩, 40, 1/10, 10⟩

/-- Witness for C10: processing `c10File` keeps the first lane's
contribution although the file failed partway. -/
theorem c10_partial_file_contribution_witness :
    process_single_file c10File sampleRegistry []
      = addReading [] c10Reading.key c10Reading.speed c10Reading.occupancy
          c10Reading.volume ∧
    (processPeriods sampleRegistry "2025-03-01" []
        [⟨some "08:15", [⟨some "AID07108", some "W", [sampleLaneA, c10BadLane]⟩]⟩]).2
      = false := by
  have hres : resolveRoad sampleRegistry "AID07108"
      = some "Kwun Tong Road Westbound" := by decide
  have h1 : parseLane "Kwun Tong Road Westbound"
      (hourOfPeriod ⟨some "08:15", []⟩)
      "W" "2025-03-01" sampleLaneA = some c10Reading := by
    simp [parseLane, laneSpeedVal, laneOccVal, laneVolVal, pyFloat, pyInt,
      digitsToNat, sampleLaneA, c10Reading, List.asString]
    decide
  have hpf : pyFloat "abc" = none := by simp [pyFloat, digitsToNat]
  exact c10_partial_file_contribution sampleRegistry "AID07108" "W" "08:15"
    "2025-03-01" [] sampleLaneA c10BadLane [] "Kwun Tong Road Westbound"
    c10Reading "abc" hres h1 rfl hpf

/-! ### C3 -/

/-- The aggregate keys a file's readings touch. -/
def fileKeys (registry : Registry) (f : XmlFile) : List Key :=
  (fileReadings registry f).map Reading.key

/-- No two distinct files of the list contribute readings with the same
aggregate key (e.g. each file carries its own date, which is part of
every key). -/
def filesKeyDisjoint (registry : Registry) (files : List XmlFile) : Prop :=
  files.Pairwise (fun f g => ∀ k, k ∈ fileKeys registry f → k ∉ fileKeys registry g)

theorem addReading_append (m m₂ : AggMap) (k : Key) (s o : ℚ) (v : ℤ)
    (h : k ∉ keysOf m) :
    addReading (m ++ m₂) k s o v = m ++ addReading m₂ k s o v := by
  induction m with
  | nil => rfl
  | cons e rest ih =>
    have hne : e.1 ≠ k := by
      intro hc
      exact h (hc ▸ List.mem_cons_self e.1 (keysOf rest))
    have hrest : k ∉ keysOf rest := fun hc => h (List.mem_cons_of_mem _ hc)
    simp only [List.cons_append, addReading, if_neg hne]
    exact congrArg (fun t => e :: t) (ih hrest)

theorem buildMapFrom_append_left (rs : List Reading) :
    ∀ (m m₂ : AggMap), (∀ r ∈ rs, r.key ∉ keysOf m) →
      buildMapFrom (m ++ m₂) rs = m ++ buildMapFrom m₂ rs := by
  induction rs with
  | nil => intro m m₂ _; rfl
  | cons r rest ih =>
    intro m m₂ h
    rw [buildMapFrom_cons, buildMapFrom_cons,
      addReading_append m m₂ r.key r.speed r.occupancy r.volume
        (h r (List.mem_cons_self r rest))]
    exact ih m _ (fun x hx => h x (List.mem_cons_of_mem r hx))

theorem mem_keys_buildMapFrom (rs : List Reading) :
    ∀ (m : AggMap) (k : Key), k ∈ keysOf (buildMapFrom m rs) →
      k ∈ keysOf m ∨ k ∈ rs.map Reading.key := by
  induction rs with
  | nil => intro m k h; exact Or.inl h
  | cons r rest ih =>
    intro m k h
    rw [buildMapFrom_cons] at h
    rcases ih _ k h with hm | hr
    · rcases (mem_keys_addReading m r.key r.speed r.occupancy r.volume k).mp hm with
        hm2 | rfl
      · exact Or.inl hm2
      · exact Or.inr (by simp)
    · exact Or.inr (List.mem_cons_of_mem _ hr)

/-- Under pairwise key-disjointness, processing a batch from the empty map
is the concatenation of the per-file maps. -/
theorem processFiles_split (registry : Registry) :
    ∀ files : List XmlFile, filesKeyDisjoint registry files →
      processFiles registry files []
        = (files.map (fun f => process_single_file f registry [])).flatten := by
  intro files
  induction files with
  | nil => intro _; rfl
  | cons f rest ih =>
    intro hdisj
    obtain ⟨hhead, htail⟩ := List.pairwise_cons.mp hdisj
    have hstep : processFiles registry (f :: rest) []
        = processFiles registry rest (process_single_file f registry []) := rfl
    have hkeys : ∀ r ∈ filesReadings registry rest,
        r.key ∉ keysOf (process_single_file f registry []) := by
      intro r hr hkey
      rw [process_single_file_eq] at hkey
      rcases mem_keys_buildMapFrom _ [] r.key hkey with h0 | hf
      · cases h0
      · obtain ⟨l, hl, hrl⟩ := List.mem_flatten.mp hr
        obtain ⟨g, hg, rfl⟩ := List.mem_map.mp hl
        exact hhead g hg r.key hf (List.mem_map_of_mem Reading.key hrl)
    rw [hstep, processFiles_eq,
      show process_single_file f registry []
          = process_single_file f registry [] ++ ([] : AggMap) from
        (List.append_nil _).symm,
      buildMapFrom_append_left _ _ [] (by simpa using hkeys)]
    simp only [List.map_cons, List.flatten_cons]
    rw [← processFiles_eq registry rest [], ih htail]

theorem dataRows_append (a b : List OutLine) :
    dataRows (a ++ b) = dataRows a ++ dataRows b :=
  List.filterMap_append ..

theorem dataRows_flatten (L : List (List OutLine)) :
    dataRows L.flatten = (L.map dataRows).flatten := by
  induction L with
  | nil => rfl
  | cons a rest ih => simp [dataRows_append, ih]

theorem dataRows_flushRows (registry : Registry) (c : List XmlFile) :
    dataRows (flushRows registry c) = (processFiles registry c []).map rowOfEntry := by
  rw [flushRows]
  generalize processFiles registry c [] = M
  induction M with
  | nil => rfl
  | cons e rest ih =>
    simp only [List.map_cons, dataRows, List.filterMap_cons] at ih ⊢
    rw [ih]

theorem flatten_map_flatten {α β : Type _} (g : α → List β) :
    ∀ L : List (List α),
      (L.map (fun c => (c.map g).flatten)).flatten = (L.flatten.map g).flatten := by
  intro L
  induction L with
  | nil => rfl
  | cons c rest ih => simp [ih]

/-- Under pairwise key-disjointness the data rows of a run are the
concatenation of the per-file finalized rows, independently of the batch
size. -/
theorem dataRows_agg_of_disjoint (files : List XmlFile) (registry : Registry)
    (bs : ℕ) (hdisj : filesKeyDisjoint registry files) :
    dataRows (aggregate_hourly_data files registry bs)
      = (files.map (fun f =>
          (process_single_file f registry []).map rowOfEntry)).flatten := by
  rw [aggregate_eq_chunks]
  rw [show OutLine.headerLine headerFields
        :: ((chunksAux bs [] files).map (flushRows registry)).flatten
      = [OutLine.headerLine headerFields]
        ++ ((chunksAux bs [] files).map (flushRows registry)).flatten from rfl,
    dataRows_append, show dataRows [OutLine.headerLine headerFields] = [] from rfl,
    List.nil_append, dataRows_flatten, List.map_map]
  have hchunk : ∀ c ∈ chunksAux bs [] files,
      (dataRows ∘ flushRows registry) c
        = (c.map (fun f =>
            (process_single_file f registry []).map rowOfEntry)).flatten := by
    intro c hc
    obtain ⟨pre, post, hparts⟩ := chunksAux_parts bs files [] c hc
    rw [List.nil_append] at hparts
    have hsub : List.Sublist c files := by
      rw [hparts]
      exact ((List.sublist_append_right pre c).trans
        (List.sublist_append_left (pre ++ c) post))
    have hcd : filesKeyDisjoint registry c := hdisj.sublist hsub
    show dataRows (flushRows registry c) = _
    rw [dataRows_flushRows, processFiles_split registry c hcd, List.map_flatten,
      List.map_map]
    rfl
  rw [List.map_congr_left hchunk, flatten_map_flatten]
  by_cases hfl : files = []
  · subst hfl; rfl
  · rw [chunksAux_flatten bs files [], if_neg hfl, List.nil_append]

/-- The two sample files share their key; flushing each alone (batch size
1) emits two per-file rows instead of the combined row of batch size 2. -/
theorem sample_run_eval_b1 :
    aggregate_hourly_data [sampleFileA, sampleFileB] sampleRegistry 1
      = [OutLine.headerLine headerFields,
         OutLine.dataLine ⟨"Kwun Tong Road Westbound", "1", "08", "W", "1",
           "2025-03-01", 40, 1/10, 10⟩,
         OutLine.dataLine ⟨"Kwun Tong Road Westbound", "1", "08", "W", "1",
           "2025-03-01", 60, 3/10, 20⟩] := by
  simp [aggregate_hourly_data, aggLoop, process_single_file, processPeriods,
    processDetectors, processLanes, parseLane, laneSpeedVal, laneOccVal, laneVolVal,
    pyFloat, pyInt, digitsToNat, resolveRoad, findRoad, hourOfPeriod, List.asString,
    addReading, bumpStats, zeroStats, write_aggregated_data, rowOfEntry,
    sampleFileA, sampleFileB, sampleLaneA, sampleLaneB, sampleRegistry, headerFields]

/-- **C3 is false as stated**: with the same file list and registry,
batch sizes 1 and 2 emit different multisets of finalized statistics
(two rows with means 40 and 60 versus one row with mean 50), because the
map is cleared at each flush and the sample key spans the flush boundary. -/
theorem c3_counterexample :
    ¬ ((dataRows (aggregate_hourly_data [sampleFileA, sampleFileB] sampleRegistry 1) :
          Multiset CsvRow)
        = (dataRows (aggregate_hourly_data [sampleFileA, sampleFileB] sampleRegistry 2) :
          Multiset CsvRow)) := by
  intro h
  have hc := congrArg Multiset.card h
  rw [Multiset.coe_card, Multiset.coe_card, sample_run_eval_b1, sample_run_eval] at hc
  simp [dataRows] at hc

/-- **C3 (amended)**: for every file list in which no two distinct files
contribute readings with the same aggregate key (in particular when every
file carries its own date), any two positive batch sizes yield the same
multiset of finalized per-key statistics — indeed the same row sequence —
only the flush grouping differs. -/
theorem c3_amended_batch_independence (files : List XmlFile) (registry : Registry)
    (b1 b2 : ℕ) (hb1 : 0 < b1) (hb2 : 0 < b2)
    (hdisj : filesKeyDisjoint registry files) :
    (dataRows (aggregate_hourly_data files registry b1) : Multiset CsvRow)
      = (dataRows (aggregate_hourly_data files registry b2) : Multiset CsvRow) := by
  rw [dataRows_agg_of_disjoint files registry b1 hdisj,
    dataRows_agg_of_disjoint files registry b2 hdisj]

/-- A third sample file like `sampleFileB` but dated one day later, so its
key differs from `sampleFileA`'s. -/
def sampleFileC : XmlFile :=
  Except.ok ⟨some "2025-03-02",
    [⟨some "08:15", [⟨some "AID07108", some "W", [sampleLaneB]⟩]⟩]⟩

/-- Witness for the amended C3: two key-disjoint files, batch sizes 1 and 2. -/
theorem c3_amended_batch_independence_witness :
    (dataRows (aggregate_hourly_data [sampleFileA, sampleFileC] sampleRegistry 1) :
        Multiset CsvRow)
      = (dataRows (aggregate_hourly_data [sampleFileA, sampleFileC] sampleRegistry 2) :
        Multiset CsvRow) := by
  have hdisj : filesKeyDisjoint sampleRegistry [sampleFileA, sampleFileC] := by
    unfold filesKeyDisjoint
    decide
  exact c3_amended_batch_independence [sampleFileA, sampleFileC] sampleRegistry 1 2
    (by norm_num) (by norm_num) hdisj

/-! ### C9 -/

/-- The per-feature input loop of `predict_new_data` (`temp_model_1.py`
lines 122-131): read input lines until one parses as a float and — for
the feature named `Hour` — lies in [0, 23]; an unparseable or
out-of-range entry prints a message and re-prompts, i.e. the next input
line is read.  A finite stream exhausting without a valid entry yields
`none` (the Python loop would simply keep prompting). -/
def readFeatureValue (feature : String) : List String → Option (ℚ × List String)
  | [] => none
  | s :: rest =>
    match pyFloat s with
    | none => readFeatureValue feature rest
    | some v =>
      if feature = "Hour" ∧ (v < 0 ∨ 23 < v) then readFeatureValue feature rest
      else some (v, rest)

/-- **C9**: for the `Hour` feature a non-numeric entry or one outside
[0, 23] (such as 25) is re-prompted — the loop moves on to the next
input — and it repeats until a valid value arrives, which is accepted at
once; every accepted hour lies in [0, 23], and no input crashes the
session (the loop is a total function of the input stream). -/
theorem c9_hour_validation :
    (∀ (s : String) (rest : List String), pyFloat s = none →
      readFeatureValue "Hour" (s :: rest) = readFeatureValue "Hour" rest) ∧
    (∀ (s : String) (rest : List String) (v : ℚ), pyFloat s = some v →
      (v < 0 ∨ 23 < v) →
      readFeatureValue "Hour" (s :: rest) = readFeatureValue "Hour" rest) ∧
    (∀ (s : String) (rest : List String) (v : ℚ), pyFloat s = some v →
      0 ≤ v → v ≤ 23 → readFeatureValue "Hour" (s :: rest) = some (v, rest)) ∧
    (∀ (inputs : List String) (v : ℚ) (rest : List String),
      readFeatureValue "Hour" inputs = some (v, rest) → 0 ≤ v ∧ v ≤ 23) := by
  refine ⟨?_, ?_, ?_, ?_⟩
  · intro s rest h
    simp [readFeatureValue, h]
  · intro s rest v h hbad
    simp [readFeatureValue, h, hbad]
  · intro s rest v h h0 h23
    have hno : ¬ (v < 0 ∨ 23 < v) := by
      rintro (hlt | hgt)
      · exact absurd h0 (not_le.mpr hlt)
      · exact absurd h23 (not_le.mpr hgt)
    simp [readFeatureValue, h, hno]
  · intro inputs
    induction inputs with
    | nil => intro v rest h; cases h
    | cons s tl ih =>
      intro v rest h
      cases hp : pyFloat s with
      | none =>
        rw [show readFeatureValue "Hour" (s :: tl) = readFeatureValue "Hour" tl from
          by simp [readFeatureValue, hp]] at h
        exact ih v rest h
      | some w =>
        by_cases hcond : w < 0 ∨ 23 < w
        · rw [show readFeatureValue "Hour" (s :: tl) = readFeatureValue "Hour" tl from
            by simp [readFeatureValue, hp, hcond]] at h
          exact ih v rest h
        · rw [show readFeatureValue "Hour" (s :: tl) = some (w, tl) from
            by simp [readFeatureValue, hp, hcond]] at h
          rw [Option.some.injEq, Prod.mk.injEq] at h
          obtain ⟨rfl, rfl⟩ := h
          rw [not_or] at hcond
          exact ⟨not_lt.mp hcond.1, not_lt.mp hcond.2⟩

/-- Witness for C9: entering 25, then a non-number, then 7 re-prompts
twice and accepts 7, which is within [0, 23]. -/
theorem c9_hour_validation_witness :
    readFeatureValue "Hour" ["25", "abc", "7"] = some (7, []) ∧
    (0 ≤ (7 : ℚ) ∧ (7 : ℚ) ≤ 23) := by
  have h25 : pyFloat "25" = some 25 := by simp [pyFloat, digitsToNat]
  have habc : pyFloat "abc" = none := by simp [pyFloat, digitsToNat]
  have h7 : pyFloat "7" = some 7 := by simp [pyFloat, digitsToNat]
  have e1 := c9_hour_validation.2.1 "25" ["abc", "7"] 25 h25 (Or.inr (by norm_num))
  have e2 := c9_hour_validation.1 "abc" ["7"] habc
  have e3 := c9_hour_validation.2.2.1 "7" [] 7 h7 (by norm_num) (by norm_num)
  exact ⟨by rw [e1, e2, e3], c9_hour_validation.2.2.2 ["7"] 7 [] e3⟩

/-! ### C2 — the trainer stage (`temp_model_1.py`) -/

/-- One row of `road_grouped` (lines 21-25): the per-(Road, Date, Hour,
Weekday) aggregation of the loaded CSV with mean speed, mean occupancy
and summed volume. -/
structure GRow where
  road : String
  date : String
  hour : String
  weekday : String
  avgSpeed : ℚ
  avgOcc : ℚ
  totVol : ℤ
deriving DecidableEq, Repr

/-- One pivoted feature row (lines 38-53): the (Date, Hour, Weekday) index
and, for each other road in first-appearance order, its three metrics —
`none` where that road has no row for the slot (pandas pivot, aggfunc
`first`). -/
structure FeatRow where
  date : String
  hour : String
  weekday : String
  cols : List (String × (Option ℚ × Option ℚ × Option ℤ))
deriving DecidableEq, Repr

/-- First-appearance deduplication (order of a pandas groupby/pivot index
is irrelevant to the properties below). -/
def firstDedup {α : Type _} [DecidableEq α] (l : List α) : List α :=
  l.foldl (fun acc x => if x ∈ acc then acc else acc ++ [x]) []

def slotOf (g : GRow) : String × String × String := (g.date, g.hour, g.weekday)

def pivotRow (nearby : List GRow) (roads : List String)
    (s : String × String × String) : FeatRow :=
  ⟨s.1, s.2.1, s.2.2,
    roads.map (fun r =>
      (r,
        match (nearby.filter (fun g => decide (g.road = r ∧ slotOf g = s))).head? with
        | some g => (some g.avgSpeed, some g.avgOcc, some g.totVol)
        | none => (none, none, none)))⟩

/-- Lines 28-70, `prepare_data_for_road`: label the target road's rows by
`Average_Speed ≤ 50`, pivot every other road's metrics into a wide table
indexed by (Date, Hour, Weekday), inner-merge the two tables on that
index, and return the feature rows and labels.  The function always
returns actual tables — wrapped in `some` here because the caller tests
them against `None` — and never returns `none`.  The one-hot weekday
encoding and the column-mean imputation (lines 59-68) change no row
count and are not needed by the properties below; the merged feature
rows are returned as pivoted. -/
def prepare_data_for_road (grouped : List GRow) (target : String) :
    Option (List FeatRow) × Option (List Bool) :=
  let targetData := grouped.filter (fun g => decide (g.road = target))
  let labels := targetData.map (fun g => (slotOf g, decide (g.avgSpeed ≤ 50)))
  let nearby := grouped.filter (fun g => decide (¬ g.road = target))
  let roads := firstDedup (nearby.map GRow.road)
  let slots := firstDedup (nearby.map slotOf)
  let featTable := slots.map (pivotRow nearby roads)
  let merged := featTable.filterMap (fun fr =>
    match (labels.filter
        (fun p => decide (p.1 = (fr.date, fr.hour, fr.weekday)))).head? with
    | some p => some (fr, p.2)
    | none => none)
  (some (merged.map Prod.fst), some (merged.map Prod.snd))

/-- Lines 73-100, `train_and_evaluate_model`.  Modelled from the spec: the
body is a sequence of library calls (`StandardScaler.fit_transform`,
`train_test_split`, `LogisticRegression.fit`) that are not part of this
repository; per the spec they raise on an empty feature table ("crashing
on an empty split"), and on nonempty input they return a fitted model,
abstracted here as the data it was fitted on. -/
def train_and_evaluate_model (X : List FeatRow) (Y : List Bool) :
    Except String (List FeatRow × List Bool) :=
  if X.isEmpty then Except.error "empty split" else Except.ok (X, Y)

/-- Lines 156-164: the per-road training loop.  The returned `X`/`Y` are
tested against `None`; since `prepare_data_for_road` never returns
`none`, the else branch (`print("Skipping ... due to data issues.")`) is
unreachable, and an exception raised inside `train_and_evaluate_model`
propagates out of the loop — there is no try/except around it. -/
def trainRoads (grouped : List GRow) :
    List String → Except String (List (String × Bool))
  | [] => Except.ok []
  | road :: rest =>
    match prepare_data_for_road grouped road with
    | (some X, some Y) =>
      (match train_and_evaluate_model X Y with
       | Except.error e => Except.error e
       | Except.ok _ =>
         (trainRoads grouped rest).map (fun l => (road, true) :: l))
    | (_, _) =>
      (trainRoads grouped rest).map (fun l => (road, false) :: l)

/-- A grouped table holding only the target road: no other-road data
shares any (date, hour, weekday), so the join is empty. -/
def c2Grouped : List GRow :=
  [⟨"Kwun Tong Road Westbound", "2025-03-01", "8", "Saturday", 40, 1/10, 10⟩]

/-- **C2 fails on the code**: `prepare_data_for_road` always returns
tables (never `None`), so the `X is not None and Y is not None` guard
always takes the training branch; on a target road with an empty
feature/label join the empty table reaches the model-fitting step and
its exception propagates out of the per-road loop — the "skip this road"
branch is dead code and the claimed no-raise behavior does not hold. -/
theorem c2_empty_join_raises :
    (∀ (grouped : List GRow) (target : String),
      (prepare_data_for_road grouped target).1.isSome = true ∧
      (prepare_data_for_road grouped target).2.isSome = true) ∧
    trainRoads c2Grouped ["Kwun Tong Road Westbound"]
      = Except.error "empty split" := by
  constructor
  · intro grouped target
    constructor <;> simp [prepare_data_for_road]
  · rfl
